import Mathlib

/-!
# WikidataSearch — verification of the query-retrieval core and frontend helpers

Shallow embedding of the WikidataSearch repository.  The frontend sources
(`frontend/src/**`) are embedded directly; the backend retrieval core
(the `wikidatasearch` Python package referenced by the Dockerfile and start
scripts) is not part of the visible tree, so its components are modelled
from the specification, each such definition marked `Modelled from the spec:`.

Conventions: JavaScript arrays are `List`, floats are modelled by `Int`
(only their ordering matters here), nullable values are `Option`, and
fallible external calls return `Option` (with `none` the failure case).
-/

namespace WikidataSearch

/-! ## Frontend code embedded from the source

`chunk` is the batching helper of `FieldAnswer.vue`
(src/unnamed/part_002, lines 62-68):

```js
function chunk<T>(arr: T[], size: number): T[][] {
  const result: T[][] = []
  for (let i = 0; i < arr.length; i += size) {
    result.push(arr.slice(i, i + size))
  }
  return result
}
```

For `size = 0` the JS loop diverges; the embedding returns `[]` there.
Every call site uses `size = 50`.
-/

def chunk {α : Type} (arr : List α) (size : Nat) : List (List α) :=
  match arr with
  | [] => []
  | a :: as =>
    if size = 0 then []
    else (a :: as).take size :: chunk ((a :: as).drop size) size
termination_by arr.length
decreasing_by
  simp only [List.length_drop, List.length_cons]
  omega

/-! ## Frontend search call embedded from the source

The `search` function of the main view (src/unnamed/part_000, lines 247-288):

```js
let lang = selectedLanguage.value.toLowerCase() || 'all'
const base = searchType.value === 'property' ? '/property/query' : '/item/query'
const fetchResult = await fetch(
  `${base}/?query=${encodeURIComponent(inputText.value)}&rerank=True&lang=${lang}`, ...)
...
if (!lang || lang === 'all') { lang = 'en' }
response.value = jsonResponse.map((r) => ({ ...r, id: r.QID ?? r.PID,
  query: inputText.value, lang: lang }))
```

`encodeURIComponent` is an external browser primitive and is passed in as a
function parameter `enc`.
-/

/-- The `lang` query parameter computed by `search`:
`selectedLanguage.toLowerCase() || 'all'` (the empty string is falsy in JS). -/
def searchLang (selectedLanguage : String) : String :=
  let l := selectedLanguage.toLower
  if l = "" then "all" else l

/-- The request URL built by `search` for a given endpoint base. -/
def searchUrl (enc : String → String) (base query selectedLanguage : String) : String :=
  base ++ "/?query=" ++ enc query ++ "&rerank=True&lang=" ++ searchLang selectedLanguage

/-- The `lang` value stamped on each result for feedback tracking:
after the fetch, `if (!lang || lang === 'all') lang = 'en'`. -/
def feedbackLang (selectedLanguage : String) : String :=
  let lang := searchLang selectedLanguage
  if lang = "" ∨ lang = "all" then "en" else lang

/-- One element of the backend JSON array as the frontend consumes it:
a `QID` or `PID` entity identifier plus a similarity score
(float modelled by `Int`; only ordering matters). -/
structure RawResult where
  QID : Option String
  PID : Option String
  similarity_score : Int
deriving Repr, DecidableEq

/-- A result after the client-side map in `search`: `id := QID ?? PID`,
plus the user query and the feedback language tag. -/
structure ClientResult where
  id : Option String
  similarity_score : Int
  query : String
  lang : String
deriving Repr, DecidableEq

/-- The client-side map over the backend response in `search`. -/
def tagResults (queryText selectedLanguage : String) (rs : List RawResult) :
    List ClientResult :=
  rs.map fun r =>
    { id := match r.QID with
            | some q => some q
            | none => r.PID
      similarity_score := r.similarity_score
      query := queryText
      lang := feedbackLang selectedLanguage }

/-! ## Spec-modelled retrieval core

The `wikidatasearch` backend package is referenced by the Dockerfile and the
start scripts but its Python sources are not in the visible tree, so the
components below are modelled from the specification (§4).
-/

abbrev EntityId := String

/-- Scores are floats in the backend; modelled by `Int` since only their
ordering is relevant to the verified properties. -/
abbrev Score := Int

/-- Fixed-dimension embedding vectors, abstracted to integer lists. -/
abbrev Embedding := List Int

/-- Modelled from the spec: a Candidate Match produced by the
VectorIndexClient (§3): `entityId` plus a raw similarity score. -/
structure Candidate where
  entityId : EntityId
  score : Score
deriving Repr, DecidableEq

/-- Modelled from the spec: a Ranked Result (§3): entity id, final score,
source tag and 1-based rank. -/
structure RankedResult where
  id : EntityId
  similarity_score : Score
  source : String
  rank : Nat
deriving Repr, DecidableEq

/-- Modelled from the spec: the AccessGate (§4.1). Authorized when the
configured secret is unset or empty, or when the caller header matches it
byte-for-byte (Lean `String` equality compares the UTF-8 content exactly). -/
def accessGate (secret : Option String) (header : Option String) : Bool :=
  match secret with
  | none => true
  | some s => decide (s = "" ∨ header = some s)

/-- Modelled from the spec: the LanguageCatalog (§4.8): codes with dedicated
partitions, the remaining known codes, and the pivot language (default
English) used by the translation fallback. -/
structure Catalog where
  nativeCodes : List String
  fallbackCodes : List String
  pivot : String
deriving Repr, DecidableEq

/-- Modelled from the spec: the LanguageRouter output (§4.2): effective
partitions, effective query text, and how many translation calls occurred. -/
structure RoutePlan where
  partitions : List String
  effectiveQuery : String
  translationCalls : Nat
deriving Repr, DecidableEq

/-- Modelled from the spec: the LanguageRouter decision table (§4.2).
`translate` is the external translation provider. -/
def route (cat : Catalog) (translate : String → String) (lang query : String) :
    RoutePlan :=
  if lang = "all" then ⟨cat.nativeCodes, query, 0⟩
  else if lang ∈ cat.nativeCodes then ⟨[lang], query, 0⟩
  else ⟨[cat.pivot], translate query, 1⟩

/-- Non-strict candidate ordering used for sorting: higher score first,
ties broken by ascending `entityId`. -/
def candLEP (a b : Candidate) : Prop :=
  b.score < a.score ∨ (a.score = b.score ∧ a.entityId ≤ b.entityId)

instance candLEP_decidable (a b : Candidate) : Decidable (candLEP a b) := by
  unfold candLEP; infer_instance

/-- Boolean form of `candLEP`, fed to `List.mergeSort`. -/
def candLE (a b : Candidate) : Bool := decide (candLEP a b)

/-- Modelled from the spec: duplicate-`entityId` removal of the
ResultAssembler (§4.6), keeping the first occurrence in sorted order
(which is a highest-scoring one). `seen` accumulates ids already kept. -/
def dedupById (seen : List EntityId) : List Candidate → List Candidate
  | [] => []
  | c :: cs =>
    if c.entityId ∈ seen then dedupById seen cs
    else c :: dedupById (c.entityId :: seen) cs

/-- Modelled from the spec: 1-based rank assignment of the
ResultAssembler (§4.6), stamping the `source` tag on each result. -/
def attachRanks (src : String) : Nat → List Candidate → List RankedResult
  | _, [] => []
  | i, c :: cs => ⟨c.entityId, c.score, src, i⟩ :: attachRanks src (i + 1) cs

/-- Modelled from the spec: the ResultAssembler (§4.6): sort descending by
score with ties by ascending id, drop duplicate ids keeping the
highest-scoring occurrence, truncate to `topK`, assign 1-based ranks. -/
def assemble (topK : Nat) (src : String) (cands : List Candidate) :
    List RankedResult :=
  attachRanks src 1 ((dedupById [] (cands.mergeSort candLE)).take topK)

/-- Modelled from the spec: the environment a request executes against:
configured secret, catalog, and the external providers (translation,
embedding, per-partition vector search, reranker), each fallible call
returning `none` on failure/timeout. -/
structure Env where
  secret : Option String
  catalog : Catalog
  translate : String → String
  embed : String → Option Embedding
  searchPartition : String → Embedding → Option (List Candidate)
  rerank : String → List Candidate → Option (List Candidate)
  topK : Nat

/-- Modelled from the spec: a Query Request (§3) as received by a query
endpoint: query text, language, rerank flag, optional `x-api-secret` header. -/
structure Request where
  query : String
  lang : String
  rerank : Bool
  header : Option String
deriving Repr, DecidableEq

/-- Modelled from the spec: the externally visible response of a query
endpoint: HTTP 200 with a ranked-result array, HTTP 401 (AccessDenied), or
HTTP 5xx (RetrievalUnavailable). -/
inductive Response where
  | ok (results : List RankedResult)
  | unauthorized
  | retrievalUnavailable
deriving Repr, DecidableEq

/-- Counts of external embedding and translation calls made while serving
one request (used to state the short-circuit / single-translation claims). -/
structure Stats where
  embedCalls : Nat
  translateCalls : Nat
deriving Repr, DecidableEq

/-- Modelled from the spec: partition fan-out (§4.4): query each partition,
a failed partition (`none`) contributing no candidate list. -/
def gather (env : Env) (v : Embedding) (parts : List String) :
    List (List Candidate) :=
  (parts.map fun p => env.searchPartition p v).filterMap id

/-- Modelled from the spec: the `source` tag stamped by the ResultAssembler
for the non-reranked paths (§4.6): native vs. translated-fallback. -/
def tagOf (plan : RoutePlan) : String :=
  if plan.translationCalls ≠ 0 then "translated-fallback" else "native"

/-- Modelled from the spec: the stages after a successful embedding call:
partition fan-out with degradation (§4.4), optional non-fatal rerank (§4.5),
assembly (§4.6).  The request fails with RetrievalUnavailable exactly when
every targeted partition of a non-empty fan-out fails. -/
def afterEmbed (env : Env) (req : Request) (plan : RoutePlan) (v : Embedding) :
    Response × Stats :=
  if plan.partitions ≠ [] ∧ gather env v plan.partitions = [] then
    (.retrievalUnavailable, ⟨1, plan.translationCalls⟩)
  else
    if req.rerank then
      match env.rerank req.query (gather env v plan.partitions).flatten with
      | some rc =>
        (.ok (assemble env.topK "reranked" rc), ⟨1, plan.translationCalls⟩)
      | none =>
        (.ok (assemble env.topK (tagOf plan) (gather env v plan.partitions).flatten),
          ⟨1, plan.translationCalls⟩)
    else
      (.ok (assemble env.topK (tagOf plan) (gather env v plan.partitions).flatten),
        ⟨1, plan.translationCalls⟩)

/-- Modelled from the spec: the request pipeline (§2, §4): AccessGate, empty
query short-circuit, LanguageRouter, QueryEmbedder, partition fan-out,
optional Reranker, ResultAssembler.  Returns the response together with the
number of embedding and translation calls performed. -/
def pipelineT (env : Env) (req : Request) : Response × Stats :=
  if accessGate env.secret req.header then
    if req.query = "" then (.ok [], ⟨0, 0⟩)
    else
      match env.embed (route env.catalog env.translate req.lang req.query).effectiveQuery with
      | none =>
        (.retrievalUnavailable,
          ⟨1, (route env.catalog env.translate req.lang req.query).translationCalls⟩)
      | some v =>
        afterEmbed env req (route env.catalog env.translate req.lang req.query) v
  else (.unauthorized, ⟨0, 0⟩)

/-- The response alone. -/
def pipeline (env : Env) (req : Request) : Response := (pipelineT env req).1

/-- The ordered entity-id sequence of a response (`none` for error responses). -/
def entityIdSeq : Response → Option (List EntityId)
  | .ok rs => some (rs.map (·.id))
  | .unauthorized => none
  | .retrievalUnavailable => none

/-- Modelled from the spec: JSON serialization of one Ranked Result (§6),
as a key/value list: minimally `id`, `similarity_score` and `source`. -/
def serializeResult (r : RankedResult) : List (String × String) :=
  [("id", r.id), ("similarity_score", toString r.similarity_score),
   ("source", r.source), ("rank", toString r.rank)]

/-- Modelled from the spec: the JSON array body of a successful response. -/
def serializeResponse (rs : List RankedResult) : List (List (String × String)) :=
  rs.map serializeResult

/-- The final strict ordering on ranked results: descending score, ties by
ascending entity id. -/
def rankedBefore (a b : RankedResult) : Prop :=
  b.similarity_score < a.similarity_score ∨
    (a.similarity_score = b.similarity_score ∧ a.id < b.id)

/-! ## Concrete demonstration environments -/

/-- A small catalog: dedicated partitions for `en` and `fr`, fallback
languages `de` and `ar`, pivot `en`. -/
def demoCatalog : Catalog := ⟨["en", "fr"], ["de", "ar"], "en"⟩

/-- A fully functional environment gated by the secret `abc123`: embedding
always succeeds, every partition returns the single candidate `Q42`. -/
def demoEnv : Env :=
  ⟨some "abc123", demoCatalog, fun q => q, fun _ => some [0],
    fun _ _ => some [⟨"Q42", 5⟩], fun _ c => some c, 10⟩

/-- `demoEnv` without a configured secret. -/
def openEnv : Env :=
  ⟨none, demoCatalog, fun q => q, fun _ => some [0],
    fun _ _ => some [⟨"Q42", 5⟩], fun _ c => some c, 10⟩

/-- `demoEnv` whose reranker always fails. -/
def noRerankEnv : Env :=
  ⟨some "abc123", demoCatalog, fun q => q, fun _ => some [0],
    fun _ _ => some [⟨"Q42", 5⟩], fun _ _ => none, 10⟩

/-- An ungated environment where only the `fr` partition is reachable:
`en` times out (returns `none`), `fr` returns the candidate `Q7`. -/
def frOnlyEnv : Env :=
  ⟨none, demoCatalog, fun q => q, fun _ => some [0],
    fun p _ => if p = "fr" then some [⟨"Q7", 3⟩] else none,
    fun _ c => some c, 10⟩

/-! ## Theorems about the embedded frontend code -/

theorem chunk_nil {α : Type} (size : Nat) : chunk ([] : List α) size = [] := by
  rw [chunk]

theorem chunk_cons {α : Type} (arr : List α) (size : Nat) (h1 : arr ≠ []) (h2 : size ≠ 0) :
    chunk arr size = arr.take size :: chunk (arr.drop size) size := by
  cases arr with
  | nil => exact absurd rfl h1
  | cons a as =>
    rw [chunk]
    simp [h2]

/-- Concatenating the batches of `chunk` recovers the input list. -/
theorem chunk_flatten {α : Type} (size : Nat) (hs : size ≠ 0) (arr : List α) :
    (chunk arr size).flatten = arr := by
  obtain ⟨n, hn⟩ : ∃ n, arr.length ≤ n := ⟨arr.length, le_refl _⟩
  induction n generalizing arr with
  | zero =>
    have : arr = [] := List.eq_nil_of_length_eq_zero (Nat.le_zero.mp hn)
    subst this
    simp [chunk_nil]
  | succ n ih =>
    cases arr with
    | nil => simp [chunk_nil]
    | cons a as =>
      rw [chunk_cons _ _ (by simp) hs]
      rw [List.flatten_cons, ih _ (by simp only [List.length_drop]; simp at hn ⊢; omega)]
      exact List.take_append_drop size (a :: as)

theorem chunk_zero {α : Type} (arr : List α) : chunk arr 0 = [] := by
  cases arr with
  | nil => exact chunk_nil 0
  | cons a as => rw [chunk]; simp

/-- Every batch produced by `chunk` has length at most `size`. -/
theorem chunk_length_le {α : Type} (size : Nat) (arr : List α) :
    ∀ b ∈ chunk arr size, b.length ≤ size := by
  obtain ⟨n, hn⟩ : ∃ n, arr.length ≤ n := ⟨arr.length, le_refl _⟩
  induction n generalizing arr with
  | zero =>
    have : arr = [] := List.eq_nil_of_length_eq_zero (Nat.le_zero.mp hn)
    subst this
    simp [chunk_nil]
  | succ n ih =>
    intro b hb
    by_cases h1 : arr = []
    · subst h1; simp [chunk_nil] at hb
    by_cases h2 : size = 0
    · subst h2; rw [chunk_zero] at hb; simp at hb
    rw [chunk_cons _ _ h1 h2] at hb
    rcases List.mem_cons.mp hb with hb | hb
    · subst hb
      simp [List.length_take]
    · exact ih (arr.drop size)
        (by simp only [List.length_drop]
            have : 0 < arr.length := List.length_pos.mpr h1
            omega) b hb

theorem chunk_eq_nil_iff {α : Type} (size : Nat) (hs : size ≠ 0) (arr : List α) :
    chunk arr size = [] ↔ arr = [] := by
  constructor
  · intro h
    by_contra h1
    rw [chunk_cons _ _ h1 hs] at h
    simp at h
  · intro h; subst h; exact chunk_nil size

/-- Every batch of `chunk` except possibly the last has length exactly `size`. -/
theorem chunk_dropLast_length {α : Type} (size : Nat) (hs : size ≠ 0) (arr : List α) :
    ∀ b ∈ (chunk arr size).dropLast, b.length = size := by
  obtain ⟨n, hn⟩ : ∃ n, arr.length ≤ n := ⟨arr.length, le_refl _⟩
  induction n generalizing arr with
  | zero =>
    have : arr = [] := List.eq_nil_of_length_eq_zero (Nat.le_zero.mp hn)
    subst this
    simp [chunk_nil]
  | succ n ih =>
    intro b hb
    by_cases h1 : arr = []
    · subst h1; simp [chunk_nil] at hb
    rw [chunk_cons _ _ h1 hs] at hb
    by_cases h2 : chunk (arr.drop size) size = []
    · rw [h2] at hb
      simp at hb
    · rw [List.dropLast_cons_of_ne_nil h2] at hb
      rcases List.mem_cons.mp hb with hb | hb
      · subst hb
        have hdrop : arr.drop size ≠ [] := (not_iff_not.mpr (chunk_eq_nil_iff size hs _)).mp h2
        have : size < arr.length := by
          by_contra hcon
          exact hdrop (List.drop_eq_nil_of_le (Nat.le_of_not_lt hcon))
        simp [List.length_take]
        omega
      · exact ih (arr.drop size)
          (by simp only [List.length_drop]
              have : 0 < arr.length := List.length_pos.mpr h1
              omega) b hb

theorem searchUrl_eq (enc : String → String) (base query sel : String) :
    searchUrl enc base query sel =
      base ++ "/?query=" ++ enc query ++ "&rerank=True&lang=" ++
        (if sel.toLower = "" then "all" else sel.toLower) := rfl

theorem feedbackLang_en (sel : String)
    (h : sel.toLower = "" ∨ sel.toLower = "all") : feedbackLang sel = "en" := by
  unfold feedbackLang searchLang
  rcases h with h | h <;> simp [h]

theorem tagResults_lang (queryText sel : String) (rs : List RawResult) :
    ∀ r ∈ tagResults queryText sel rs, r.lang = feedbackLang sel := by
  intro r hr
  unfold tagResults at hr
  obtain ⟨r0, _, rfl⟩ := List.mem_map.mp hr
  rfl

/-! ## Properties of the ResultAssembler -/

theorem candLEP_trans (a b c : Candidate) (h1 : candLEP a b) (h2 : candLEP b c) :
    candLEP a c := by
  unfold candLEP at *
  rcases h1 with h1 | ⟨h1, h1'⟩ <;> rcases h2 with h2 | ⟨h2, h2'⟩
  · exact Or.inl (h2.trans h1)
  · exact Or.inl (h2 ▸ h1)
  · exact Or.inl (h1 ▸ h2)
  · exact Or.inr ⟨h1.trans h2, h1'.trans h2'⟩

theorem candLEP_total (a b : Candidate) : candLEP a b ∨ candLEP b a := by
  unfold candLEP
  rcases lt_trichotomy a.score b.score with h | h | h
  · exact Or.inr (Or.inl h)
  · rcases le_total a.entityId b.entityId with h' | h'
    · exact Or.inl (Or.inr ⟨h, h'⟩)
    · exact Or.inr (Or.inr ⟨h.symm, h'⟩)
  · exact Or.inl (Or.inl h)

theorem candLE_eq_true {a b : Candidate} : candLE a b = true ↔ candLEP a b := by
  simp [candLE]

/-- The merge sort used by `assemble` yields a `candLEP`-sorted permutation. -/
theorem mergeSort_cand_sorted (l : List Candidate) :
    (l.mergeSort candLE).Pairwise candLEP := by
  have h := @List.sorted_mergeSort Candidate candLE
    (fun a b c hab hbc =>
      candLE_eq_true.mpr (candLEP_trans a b c (candLE_eq_true.mp hab) (candLE_eq_true.mp hbc)))
    (fun a b => by
      rcases candLEP_total a b with h | h <;>
        simp [candLE_eq_true.mpr, h, Bool.or_eq_true, candLE])
    l
  exact h.imp (fun hab => candLE_eq_true.mp hab)

theorem dedupById_sublist (seen : List EntityId) (l : List Candidate) :
    (dedupById seen l).Sublist l := by
  induction l generalizing seen with
  | nil => simp [dedupById]
  | cons c cs ih =>
    unfold dedupById
    by_cases h : c.entityId ∈ seen
    · simp only [if_pos h]
      exact (ih seen).cons c
    · simp only [if_neg h]
      exact (ih (c.entityId :: seen)).cons₂ c

theorem dedupById_not_seen (seen : List EntityId) (l : List Candidate) :
    ∀ c ∈ dedupById seen l, c.entityId ∉ seen := by
  induction l generalizing seen with
  | nil => simp [dedupById]
  | cons c cs ih =>
    intro d hd
    unfold dedupById at hd
    by_cases h : c.entityId ∈ seen
    · rw [if_pos h] at hd
      exact ih seen d hd
    · rw [if_neg h] at hd
      rcases List.mem_cons.mp hd with hd | hd
      · subst hd; exact h
      · intro hmem
        exact ih (c.entityId :: seen) d hd (List.mem_cons_of_mem _ hmem)

theorem dedupById_ids_nodup (seen : List EntityId) (l : List Candidate) :
    ((dedupById seen l).map (·.entityId)).Nodup := by
  induction l generalizing seen with
  | nil => simp [dedupById]
  | cons c cs ih =>
    unfold dedupById
    by_cases h : c.entityId ∈ seen
    · simp only [if_pos h]
      exact ih seen
    · simp only [if_neg h]
      rw [List.map_cons]
      refine List.nodup_cons.mpr ⟨?_, ih (c.entityId :: seen)⟩
      intro hmem
      obtain ⟨d, hd, hid⟩ := List.mem_map.mp hmem
      exact dedupById_not_seen _ _ d hd (hid ▸ List.mem_cons_self _ _)

/-- Each input element has a representative of the same id in the dedup
output whose score is at least as high (given the input is sorted). -/
theorem dedupById_best (l : List Candidate) (hsort : l.Pairwise candLEP) :
    ∀ seen, ∀ c' ∈ l, c'.entityId ∉ seen →
      ∃ c ∈ dedupById seen l, c.entityId = c'.entityId ∧ c'.score ≤ c.score := by
  induction l with
  | nil => simp
  | cons c cs ih =>
    intro seen c' hc' hns
    have hsort' := (List.pairwise_cons.mp hsort).2
    have hhead := (List.pairwise_cons.mp hsort).1
    unfold dedupById
    by_cases h : c.entityId ∈ seen
    · rw [if_pos h]
      rcases List.mem_cons.mp hc' with rfl | hc'
      · exact absurd h hns
      · exact ih hsort' seen c' hc' hns
    · rw [if_neg h]
      rcases List.mem_cons.mp hc' with rfl | hc'
      · exact ⟨c', List.mem_cons_self _ _, rfl, le_refl _⟩
      · by_cases hid : c'.entityId = c.entityId
        · refine ⟨c, List.mem_cons_self _ _, hid.symm, ?_⟩
          rcases hhead c' hc' with hlt | ⟨heq, _⟩
          · exact le_of_lt hlt
          · exact le_of_eq heq.symm
        · obtain ⟨d, hd, hdid, hdsc⟩ :=
            ih hsort' (c.entityId :: seen) c' hc'
              (by intro hm
                  rcases List.mem_cons.mp hm with hm | hm
                  · exact hid hm
                  · exact hns hm)
          exact ⟨d, List.mem_cons_of_mem _ hd, hdid, hdsc⟩

theorem attachRanks_length (src : String) (i : Nat) (cs : List Candidate) :
    (attachRanks src i cs).length = cs.length := by
  induction cs generalizing i with
  | nil => rfl
  | cons c cs ih => simp [attachRanks, ih]

theorem attachRanks_map_rank (src : String) (i : Nat) (cs : List Candidate) :
    (attachRanks src i cs).map (·.rank) = List.range' i cs.length := by
  induction cs generalizing i with
  | nil => rfl
  | cons c cs ih => simp [attachRanks, List.range'_succ, ih]

theorem attachRanks_map_id (src : String) (i : Nat) (cs : List Candidate) :
    (attachRanks src i cs).map (·.id) = cs.map (·.entityId) := by
  induction cs generalizing i with
  | nil => rfl
  | cons c cs ih => simp [attachRanks, ih]

theorem attachRanks_mem (src : String) (i : Nat) (cs : List Candidate) :
    ∀ r ∈ attachRanks src i cs,
      ∃ c ∈ cs, r.id = c.entityId ∧ r.similarity_score = c.score := by
  induction cs generalizing i with
  | nil => simp [attachRanks]
  | cons c cs ih =>
    intro r hr
    rcases List.mem_cons.mp hr with rfl | hr
    · exact ⟨c, List.mem_cons_self _ _, rfl, rfl⟩
    · obtain ⟨d, hd, h1, h2⟩ := ih (i + 1) r hr
      exact ⟨d, List.mem_cons_of_mem _ hd, h1, h2⟩

theorem attachRanks_pairwise (src : String) (i : Nat) (cs : List Candidate)
    (P : EntityId → Score → EntityId → Score → Prop)
    (h : cs.Pairwise fun a b => P a.entityId a.score b.entityId b.score) :
    (attachRanks src i cs).Pairwise
      fun x y => P x.id x.similarity_score y.id y.similarity_score := by
  induction cs generalizing i with
  | nil => simp [attachRanks]
  | cons c cs ih =>
    have hcons := List.pairwise_cons.mp h
    refine List.pairwise_cons.mpr ⟨?_, ih (i + 1) hcons.2⟩
    intro y hy
    obtain ⟨d, hd, h1, h2⟩ := attachRanks_mem src (i + 1) cs y hy
    rw [h1, h2]
    exact hcons.1 d hd

theorem assemble_length_le (K : Nat) (src : String) (cands : List Candidate) :
    (assemble K src cands).length ≤ K := by
  unfold assemble
  rw [attachRanks_length]
  exact (List.length_take _ _).le.trans (min_le_left _ _)

theorem assemble_ids_nodup (K : Nat) (src : String) (cands : List Candidate) :
    ((assemble K src cands).map (·.id)).Nodup := by
  unfold assemble
  rw [attachRanks_map_id]
  exact (dedupById_ids_nodup [] (cands.mergeSort candLE)).sublist
    ((List.take_sublist _ _).map _)

theorem assemble_sorted (K : Nat) (src : String) (cands : List Candidate) :
    (assemble K src cands).Pairwise rankedBefore := by
  unfold assemble
  have hdd : (dedupById [] (cands.mergeSort candLE)).Pairwise candLEP :=
    List.Pairwise.sublist (dedupById_sublist _ _) (mergeSort_cand_sorted cands)
  have htake : ((dedupById [] (cands.mergeSort candLE)).take K).Pairwise candLEP :=
    List.Pairwise.sublist (List.take_sublist _ _) hdd
  have hne : ((dedupById [] (cands.mergeSort candLE)).take K).Pairwise
      (fun a b => a.entityId ≠ b.entityId) := by
    have hnd : (((dedupById [] (cands.mergeSort candLE)).take K).map
        (·.entityId)).Nodup :=
      (dedupById_ids_nodup [] (cands.mergeSort candLE)).sublist
        ((List.take_sublist _ _).map _)
    exact List.pairwise_map.mp hnd
  have hstrict : ((dedupById [] (cands.mergeSort candLE)).take K).Pairwise
      (fun a b => b.score < a.score ∨ (a.score = b.score ∧ a.entityId < b.entityId)) :=
    (htake.and hne).imp
      (fun {a b} h => by
        rcases h.1 with hlt | ⟨heq, hle⟩
        · exact Or.inl hlt
        · exact Or.inr ⟨heq, lt_of_le_of_ne hle h.2⟩)
  exact (attachRanks_pairwise src 1 _
    (fun ida sa idb sb => sb < sa ∨ (sa = sb ∧ ida < idb)) hstrict).imp
    (fun {x y} h => h)

theorem assemble_ranks (K : Nat) (src : String) (cands : List Candidate) :
    (assemble K src cands).map (·.rank) =
      List.range' 1 (assemble K src cands).length := by
  unfold assemble
  rw [attachRanks_map_rank, attachRanks_length]

theorem assemble_best (K : Nat) (src : String) (cands : List Candidate) :
    ∀ r ∈ assemble K src cands, ∀ c ∈ cands,
      c.entityId = r.id → c.score ≤ r.similarity_score := by
  intro r hr c hc hid
  unfold assemble at hr
  obtain ⟨c0, hc0take, hrid, hrsc⟩ := attachRanks_mem _ _ _ r hr
  have hc0dd : c0 ∈ dedupById [] (cands.mergeSort candLE) :=
    List.mem_of_mem_take hc0take
  have hcms : c ∈ cands.mergeSort candLE := List.mem_mergeSort.mpr hc
  obtain ⟨d, hddd, hdid, hdsc⟩ :=
    dedupById_best _ (mergeSort_cand_sorted cands) [] c hcms (by simp)
  have hsame : d.entityId = c0.entityId := by
    rw [hdid, hid, hrid]
  have : d = c0 :=
    List.inj_on_of_nodup_map (dedupById_ids_nodup [] (cands.mergeSort candLE))
      hddd hc0dd hsame
  rw [hrsc, ← this]
  exact hdsc

/-! ## Pipeline-level lemmas -/

theorem pipelineT_unauthorized (env : Env) (req : Request)
    (h : accessGate env.secret req.header = false) :
    pipelineT env req = (.unauthorized, ⟨0, 0⟩) := by
  unfold pipelineT
  rw [h]
  simp

theorem pipelineT_empty_query (env : Env) (req : Request)
    (hgate : accessGate env.secret req.header = true) (hq : req.query = "") :
    pipelineT env req = (.ok [], ⟨0, 0⟩) := by
  unfold pipelineT
  rw [hgate, if_pos rfl, if_pos hq]

theorem afterEmbed_ok_shape (env : Env) (req : Request) (plan : RoutePlan)
    (v : Embedding) (rs : List RankedResult)
    (h : (afterEmbed env req plan v).1 = .ok rs) :
    ∃ src c, rs = assemble env.topK src c := by
  unfold afterEmbed at h
  by_cases hfail : plan.partitions ≠ [] ∧ gather env v plan.partitions = []
  · rw [if_pos hfail] at h; simp at h
  · rw [if_neg hfail] at h
    by_cases hrr : req.rerank = true
    · rw [if_pos hrr] at h
      cases hre : env.rerank req.query (gather env v plan.partitions).flatten with
      | some rc => rw [hre] at h; exact ⟨"reranked", rc, by simpa using h.symm⟩
      | none => rw [hre] at h; exact ⟨_, _, by simpa using h.symm⟩
    · rw [if_neg hrr] at h; exact ⟨_, _, by simpa using h.symm⟩

/-- Every `ok` response to a non-empty query is an output of `assemble`
at the configured top-K. -/
theorem pipeline_ok_shape (env : Env) (req : Request) (rs : List RankedResult)
    (h : pipeline env req = .ok rs) (hq : req.query ≠ "") :
    ∃ src c, rs = assemble env.topK src c := by
  unfold pipeline pipelineT at h
  by_cases hgate : accessGate env.secret req.header = true
  · rw [if_pos hgate, if_neg hq] at h
    cases hembed :
        env.embed (route env.catalog env.translate req.lang req.query).effectiveQuery with
    | none => rw [hembed] at h; simp at h
    | some v =>
      rw [hembed] at h
      exact afterEmbed_ok_shape env req _ v rs h
  · rw [if_neg hgate] at h
    simp at h

/-- When every targeted partition fails, the fan-out yields nothing. -/
theorem gather_all_none (env : Env) (v : Embedding) (parts : List String)
    (h : ∀ p ∈ parts, env.searchPartition p v = none) :
    gather env v parts = [] := by
  induction parts with
  | nil => rfl
  | cons p ps ih =>
    unfold gather at *
    simp only [List.map_cons, List.filterMap_cons, h p (List.mem_cons_self _ _)]
    exact ih (fun q hq => h q (List.mem_cons_of_mem _ hq))

/-- A surviving partition makes the fan-out non-empty. -/
theorem gather_ne_nil (env : Env) (v : Embedding) (parts : List String)
    (p : String) (hp : p ∈ parts) (hs : env.searchPartition p v ≠ none) :
    gather env v parts ≠ [] := by
  cases hl : env.searchPartition p v with
  | none => exact absurd hl hs
  | some l =>
    intro hnil
    have : l ∈ gather env v parts := by
      unfold gather
      refine List.mem_filterMap.mpr ⟨some l, ?_, rfl⟩
      exact List.mem_map.mpr ⟨p, hp, hl⟩
    rw [hnil] at this
    exact absurd this (List.not_mem_nil l)

/-- Failed partitions contribute nothing: the fan-out over all partitions
equals the fan-out over the surviving partitions only. -/
theorem gather_filter_surviving (env : Env) (v : Embedding) (parts : List String) :
    gather env v parts =
      gather env v (parts.filter fun p => (env.searchPartition p v).isSome) := by
  induction parts with
  | nil => rfl
  | cons p ps ih =>
    unfold gather at *
    cases hl : env.searchPartition p v with
    | none =>
      simp only [List.filter_cons, hl, Option.isSome_none, Bool.false_eq_true,
        if_false, List.map_cons, List.filterMap_cons]
      exact ih
    | some l =>
      simp only [List.filter_cons, hl, Option.isSome_some, if_true,
        List.map_cons, List.filterMap_cons]
      rw [ih]

theorem accessGate_iff (S H : Option String) :
    accessGate S H = true ↔
      S = none ∨ S = some "" ∨ ∃ s, S = some s ∧ H = some s := by
  cases S with
  | none => simp [accessGate]
  | some s =>
    simp only [accessGate, decide_eq_true_eq, Option.some.injEq]
    constructor
    · rintro (rfl | h)
      · exact Or.inr (Or.inl rfl)
      · exact Or.inr (Or.inr ⟨s, rfl, h⟩)
    · rintro (h | h | ⟨t, rfl, ht⟩)
      · exact absurd h (by simp)
      · exact Or.inl h
      · exact Or.inr ht

theorem route_all (cat : Catalog) (translate : String → String) (q : String) :
    route cat translate "all" q = ⟨cat.nativeCodes, q, 0⟩ := rfl

theorem route_native (cat : Catalog) (translate : String → String) (lang q : String)
    (h1 : lang ≠ "all") (h2 : lang ∈ cat.nativeCodes) :
    route cat translate lang q = ⟨[lang], q, 0⟩ := by
  unfold route
  rw [if_neg h1, if_pos h2]

theorem route_fallback (cat : Catalog) (translate : String → String) (lang q : String)
    (h1 : lang ≠ "all") (h2 : lang ∉ cat.nativeCodes) :
    route cat translate lang q = ⟨[cat.pivot], translate q, 1⟩ := by
  unfold route
  rw [if_neg h1, if_neg h2]

theorem route_translationCalls_le_one (cat : Catalog) (translate : String → String)
    (lang q : String) : (route cat translate lang q).translationCalls ≤ 1 := by
  unfold route
  split
  · exact Nat.zero_le 1
  · split
    · exact Nat.zero_le 1
    · exact le_refl 1

theorem afterEmbed_rerank_none (env : Env) (req : Request) (plan : RoutePlan)
    (v : Embedding) (h : env.rerank = fun _ _ => none) :
    afterEmbed env req plan v = afterEmbed env { req with rerank := false } plan v := by
  unfold afterEmbed
  rw [h]
  simp

theorem pipeline_rerank_none_eq (env : Env) (req : Request)
    (h : env.rerank = fun _ _ => none) :
    pipeline env req = pipeline env { req with rerank := false } := by
  unfold pipeline pipelineT
  have e1 : ({ req with rerank := false } : Request).header = req.header := rfl
  have e2 : ({ req with rerank := false } : Request).query = req.query := rfl
  have e3 : ({ req with rerank := false } : Request).lang = req.lang := rfl
  rw [e1, e2, e3]
  by_cases hgate : accessGate env.secret req.header = true
  · rw [if_pos hgate, if_pos hgate]
    by_cases hq : req.query = ""
    · rw [if_pos hq, if_pos hq]
    · rw [if_neg hq, if_neg hq]
      cases env.embed (route env.catalog env.translate req.lang req.query).effectiveQuery with
      | none => rfl
      | some v => exact congrArg Prod.fst (afterEmbed_rerank_none env req _ v h)
  · rw [if_neg hgate, if_neg hgate]

theorem tagOf_zero (plan : RoutePlan) (h : plan.translationCalls = 0) :
    tagOf plan = "native" := by
  unfold tagOf
  rw [h]
  simp

theorem afterEmbed_no_rerank (env : Env) (req : Request) (plan : RoutePlan)
    (v : Embedding) (hrr : req.rerank = false) :
    (afterEmbed env req plan v).1 =
      if plan.partitions ≠ [] ∧ gather env v plan.partitions = [] then
        .retrievalUnavailable
      else .ok (assemble env.topK (tagOf plan) (gather env v plan.partitions).flatten) := by
  unfold afterEmbed
  rw [hrr]
  by_cases hc : plan.partitions ≠ [] ∧ gather env v plan.partitions = []
  · rw [if_pos hc, if_pos hc]
  · rw [if_neg hc, if_neg hc]
    simp

/-- For an authorized non-empty `lang=all` request without rerank, the
response is determined by the fan-out over the native partitions. -/
theorem pipeline_all_fanout (env : Env) (req : Request) (v : Embedding)
    (hgate : accessGate env.secret req.header = true) (hq : req.query ≠ "")
    (hlang : req.lang = "all") (hrr : req.rerank = false)
    (hembed : env.embed req.query = some v) :
    pipeline env req =
      if env.catalog.nativeCodes ≠ [] ∧ gather env v env.catalog.nativeCodes = [] then
        .retrievalUnavailable
      else
        .ok (assemble env.topK "native" (gather env v env.catalog.nativeCodes).flatten) := by
  unfold pipeline pipelineT
  rw [if_pos hgate, if_neg hq, hlang, route_all, hembed]
  rw [afterEmbed_no_rerank env req _ v hrr]
  rw [tagOf_zero _ rfl]

/-- For an authorized non-empty `lang=all` request (any rerank flag), the
response is the first projection of `afterEmbed` at the all-natives plan. -/
theorem pipeline_all_eq (env : Env) (req : Request) (v : Embedding)
    (hgate : accessGate env.secret req.header = true) (hq : req.query ≠ "")
    (hlang : req.lang = "all") (hembed : env.embed req.query = some v) :
    pipeline env req =
      (afterEmbed env req ⟨env.catalog.nativeCodes, req.query, 0⟩ v).1 := by
  unfold pipeline pipelineT
  rw [if_pos hgate, if_neg hq, hlang, route_all, hembed]

theorem afterEmbed_unavailable (env : Env) (req : Request) (plan : RoutePlan)
    (v : Embedding)
    (hc : plan.partitions ≠ [] ∧ gather env v plan.partitions = []) :
    (afterEmbed env req plan v).1 = .retrievalUnavailable := by
  unfold afterEmbed
  rw [if_pos hc]

/-- Whenever the fan-out is not a total failure, the response is a
successful assembled list — for any value of the rerank flag. -/
theorem afterEmbed_ok_of_not_fail (env : Env) (req : Request) (plan : RoutePlan)
    (v : Embedding)
    (hc : ¬(plan.partitions ≠ [] ∧ gather env v plan.partitions = [])) :
    ∃ src cands, (afterEmbed env req plan v).1 = .ok (assemble env.topK src cands) := by
  unfold afterEmbed
  rw [if_neg hc]
  by_cases hrr : req.rerank = true
  · rw [if_pos hrr]
    cases env.rerank req.query (gather env v plan.partitions).flatten with
    | some rc => exact ⟨"reranked", rc, rfl⟩
    | none => exact ⟨_, _, rfl⟩
  · rw [if_neg hrr]
    exact ⟨_, _, rfl⟩

/-- When the reranker is not requested or returns `none`, the successful
response is exactly the assembled merged fan-out. -/
theorem afterEmbed_base (env : Env) (req : Request) (plan : RoutePlan)
    (v : Embedding)
    (hc : ¬(plan.partitions ≠ [] ∧ gather env v plan.partitions = []))
    (hrn : req.rerank = false ∨
      env.rerank req.query (gather env v plan.partitions).flatten = none) :
    (afterEmbed env req plan v).1 =
      .ok (assemble env.topK (tagOf plan) (gather env v plan.partitions).flatten) := by
  unfold afterEmbed
  rw [if_neg hc]
  by_cases hrr : req.rerank = true
  · rw [if_pos hrr]
    rcases hrn with hrn | hrn
    · rw [hrr] at hrn
      exact absurd hrn (by simp)
    · rw [hrn]
  · rw [if_neg hrr]

/-- Converse of `gather_all_none`: an empty fan-out result means every
targeted partition failed. -/
theorem gather_eq_nil_all_none (env : Env) (v : Embedding) (parts : List String)
    (h : gather env v parts = []) :
    ∀ p ∈ parts, env.searchPartition p v = none := by
  intro p hp
  cases hl : env.searchPartition p v with
  | none => rfl
  | some l => exact absurd h (gather_ne_nil env v parts p hp (by simp [hl]))

/-! ## Claims -/

/-- C1 counterexample: with secret `abc123` configured and no header
supplied, the empty-query request is answered 401 (`unauthorized`), not
HTTP 200 with `[]` — exactly what the frontend access probe
(`checkApiAccess`) relies on.  So the claim does not hold for *any*
configured-secret state. -/
theorem C1_empty_query_cex :
    pipeline demoEnv ⟨"", "en", true, none⟩ ≠ .ok [] := by decide

/-- C1 (amended): for every *authorized* request (secret unset/empty or
matching header) with empty query text, for any language, the pipeline
returns the empty result array with HTTP 200 without invoking the
QueryEmbedder (zero embedding calls, and zero translation calls). -/
theorem C1_empty_query_short_circuit (env : Env) (req : Request)
    (hgate : accessGate env.secret req.header = true) (hq : req.query = "") :
    pipelineT env req = (.ok [], ⟨0, 0⟩) :=
  pipelineT_empty_query env req hgate hq

/-- C1 witness: the amended claim at a concrete ungated environment. -/
theorem C1_empty_query_witness :
    pipelineT openEnv ⟨"", "fr", true, none⟩ = (.ok [], ⟨0, 0⟩) :=
  C1_empty_query_short_circuit openEnv ⟨"", "fr", true, none⟩ (by decide) rfl

/-- C2: the AccessGate authorizes exactly when the configured secret is
unset or empty or the supplied header equals it byte-for-byte; and a denied
request is answered 401 before any embedding or translation call. -/
theorem C2_access_gate (env : Env) (req : Request) :
    (accessGate env.secret req.header = true ↔
      env.secret = none ∨ env.secret = some "" ∨
        ∃ s, env.secret = some s ∧ req.header = some s) ∧
    (accessGate env.secret req.header = false →
      pipelineT env req = (.unauthorized, ⟨0, 0⟩)) :=
  ⟨accessGate_iff env.secret req.header, fun h => pipelineT_unauthorized env req h⟩

/-- C2 witness: matching header authorizes; missing header is rejected with
401 and no external calls. -/
theorem C2_access_gate_witness :
    accessGate demoEnv.secret (some "abc123") = true ∧
    pipelineT demoEnv ⟨"q", "en", false, none⟩ = (.unauthorized, ⟨0, 0⟩) :=
  ⟨(C2_access_gate demoEnv ⟨"q", "en", false, some "abc123"⟩).1.mpr
      (Or.inr (Or.inr ⟨"abc123", rfl, rfl⟩)),
    (C2_access_gate demoEnv ⟨"q", "en", false, none⟩).2 (by decide)⟩

/-- C3: a successful response to a valid non-empty `lang=all` query has at
most top-K results, duplicate-free entity ids, is sorted descending by
final score with ties broken by ascending entity id, carries 1-based ranks,
and the assembler keeps the highest-scoring occurrence of each entity id. -/
theorem C3_result_assembly (env : Env) (req : Request) (rs : List RankedResult)
    (hok : pipeline env req = .ok rs) (hq : req.query ≠ "")
    (hlang : req.lang = "all") :
    rs.length ≤ env.topK ∧
    (rs.map (·.id)).Nodup ∧
    rs.Pairwise rankedBefore ∧
    rs.map (·.rank) = List.range' 1 rs.length ∧
    (∀ K src cands, ∀ r ∈ assemble K src cands, ∀ c ∈ cands,
      c.entityId = r.id → c.score ≤ r.similarity_score) := by
  obtain ⟨src, c, rfl⟩ := pipeline_ok_shape env req rs hok hq
  exact ⟨assemble_length_le env.topK src c, assemble_ids_nodup env.topK src c,
    assemble_sorted env.topK src c, assemble_ranks env.topK src c,
    fun K s cs => assemble_best K s cs⟩

unseal List.mergeSort List.merge String.ltb in
/-- C3 witness: the concrete open environment answers `lang=all` with a
single ranked result, and the theorem applies to it. -/
theorem C3_result_assembly_witness :
    pipeline openEnv ⟨"hi", "all", false, none⟩ = .ok [⟨"Q42", 5, "native", 1⟩] ∧
    ([(⟨"Q42", 5, "native", 1⟩ : RankedResult)]).length ≤ openEnv.topK := by
  have hok : pipeline openEnv ⟨"hi", "all", false, none⟩ =
      .ok [⟨"Q42", 5, "native", 1⟩] := by decide
  exact ⟨hok,
    (C3_result_assembly openEnv ⟨"hi", "all", false, none⟩ _ hok (by decide) rfl).1⟩

unseal List.mergeSort List.merge String.ltb in
/-- C4 counterexample: two requests identical in (query, lang, rerank) but
differing in the supplied secret header get different entity-id sequences
(one 401, one with results), so determinism requires fixing the header too. -/
theorem C4_two_run_cex :
    (⟨"hi", "en", false, some "abc123"⟩ : Request).query =
        (⟨"hi", "en", false, none⟩ : Request).query ∧
    (⟨"hi", "en", false, some "abc123"⟩ : Request).lang =
        (⟨"hi", "en", false, none⟩ : Request).lang ∧
    (⟨"hi", "en", false, some "abc123"⟩ : Request).rerank =
        (⟨"hi", "en", false, none⟩ : Request).rerank ∧
    entityIdSeq (pipeline demoEnv ⟨"hi", "en", false, some "abc123"⟩) ≠
      entityIdSeq (pipeline demoEnv ⟨"hi", "en", false, none⟩) := by
  refine ⟨rfl, rfl, rfl, ?_⟩
  decide

/-- C4 (amended): two requests identical in (query, lang, rerank) *and the
secret header* against the same environment get identical ordered
entity-id sequences — the pipeline is deterministic as a two-run property. -/
theorem C4_two_run_deterministic (env : Env) (r1 r2 : Request)
    (hq : r1.query = r2.query) (hl : r1.lang = r2.lang)
    (hr : r1.rerank = r2.rerank) (hh : r1.header = r2.header) :
    entityIdSeq (pipeline env r1) = entityIdSeq (pipeline env r2) := by
  have : r1 = r2 := by
    cases r1
    cases r2
    simp_all
  rw [this]

/-- C4 witness: the amended claim at concrete identical requests. -/
theorem C4_two_run_witness :
    entityIdSeq (pipeline demoEnv ⟨"hi", "en", false, some "abc123"⟩) =
      entityIdSeq (pipeline demoEnv ⟨"hi", "en", false, some "abc123"⟩) :=
  C4_two_run_deterministic demoEnv _ _ rfl rfl rfl rfl

/-- C5: the LanguageRouter decision table: a native language queries only
its own partition with the text unmodified and no translation; a fallback
or unrecognized language translates exactly once and queries the pivot
partition; `all` queries every native partition with no translation; and
translation never happens more than once per request. -/
theorem C5_language_router (cat : Catalog) (translate : String → String)
    (lang q : String) :
    (lang ≠ "all" → lang ∈ cat.nativeCodes →
      route cat translate lang q = ⟨[lang], q, 0⟩) ∧
    (lang ≠ "all" → lang ∉ cat.nativeCodes →
      route cat translate lang q = ⟨[cat.pivot], translate q, 1⟩) ∧
    (lang = "all" → route cat translate lang q = ⟨cat.nativeCodes, q, 0⟩) ∧
    (route cat translate lang q).translationCalls ≤ 1 :=
  ⟨route_native cat translate lang q, route_fallback cat translate lang q,
    fun h => by rw [h, route_all],
    route_translationCalls_le_one cat translate lang q⟩

/-- C5 witness: the decision table on the demo catalog: native `fr`,
fallback `de` (translated once to the pivot), and `all`. -/
theorem C5_language_router_witness :
    route demoCatalog id "fr" "hello" = ⟨["fr"], "hello", 0⟩ ∧
    route demoCatalog id "de" "hallo" = ⟨["en"], "hallo", 1⟩ ∧
    route demoCatalog id "all" "hi" = ⟨["en", "fr"], "hi", 0⟩ :=
  ⟨(C5_language_router demoCatalog id "fr" "hello").1 (by decide) (by decide),
    (C5_language_router demoCatalog id "de" "hallo").2.1 (by decide) (by decide),
    (C5_language_router demoCatalog id "all" "hi").2.2.1 rfl⟩

/-- C6: when the reranker errors or is disabled (always returns `none`),
a `rerank=true` request gets exactly the response of the corresponding
unreranked request — reranking failure is non-fatal. -/
theorem C6_rerank_nonfatal (env : Env) (req : Request)
    (h : env.rerank = fun _ _ => none) :
    pipeline env req = pipeline env { req with rerank := false } :=
  pipeline_rerank_none_eq env req h

unseal List.mergeSort List.merge String.ltb in
/-- C6 witness: with a failing reranker, `rerank=true` still yields the
unreranked similarity-sorted result list, not an error. -/
theorem C6_rerank_nonfatal_witness :
    pipeline noRerankEnv ⟨"hi", "en", true, some "abc123"⟩ =
      pipeline noRerankEnv ⟨"hi", "en", false, some "abc123"⟩ ∧
    pipeline noRerankEnv ⟨"hi", "en", true, some "abc123"⟩ =
      .ok [⟨"Q42", 5, "native", 1⟩] := by
  constructor
  · exact C6_rerank_nonfatal noRerankEnv ⟨"hi", "en", true, some "abc123"⟩ rfl
  · decide

/-- C7: during a `lang=all` fan-out (authorized, non-empty query, no
rerank, embedding succeeded): failed partitions contribute zero
candidates (the fan-out equals the fan-out over surviving partitions); if
any targeted partition survives the response is a successful merge, and
the request fails with RetrievalUnavailable only when every targeted
partition fails. -/
theorem C7_partition_degradation (env : Env) (req : Request) (v : Embedding)
    (hgate : accessGate env.secret req.header = true) (hq : req.query ≠ "")
    (hlang : req.lang = "all") (hembed : env.embed req.query = some v) :
    gather env v env.catalog.nativeCodes =
      gather env v (env.catalog.nativeCodes.filter
        fun p => (env.searchPartition p v).isSome) ∧
    ((∃ p ∈ env.catalog.nativeCodes, env.searchPartition p v ≠ none) →
      ∃ src cands, pipeline env req = .ok (assemble env.topK src cands)) ∧
    ((∃ p ∈ env.catalog.nativeCodes, env.searchPartition p v ≠ none) →
      req.rerank = false ∨
        env.rerank req.query (gather env v env.catalog.nativeCodes).flatten = none →
      pipeline env req =
        .ok (assemble env.topK "native"
          (gather env v env.catalog.nativeCodes).flatten)) ∧
    (env.catalog.nativeCodes ≠ [] →
      (∀ p ∈ env.catalog.nativeCodes, env.searchPartition p v = none) →
      pipeline env req = .retrievalUnavailable) ∧
    (pipeline env req = .retrievalUnavailable →
      ∀ p ∈ env.catalog.nativeCodes, env.searchPartition p v = none) := by
  have hpipe := pipeline_all_eq env req v hgate hq hlang hembed
  have hsurv : (∃ p ∈ env.catalog.nativeCodes, env.searchPartition p v ≠ none) →
      ¬(env.catalog.nativeCodes ≠ [] ∧ gather env v env.catalog.nativeCodes = []) := by
    rintro ⟨p, hp, hps⟩ ⟨-, hnil⟩
    exact gather_ne_nil env v env.catalog.nativeCodes p hp hps hnil
  refine ⟨gather_filter_surviving env v env.catalog.nativeCodes, ?_, ?_, ?_, ?_⟩
  · intro hex
    rw [hpipe]
    exact afterEmbed_ok_of_not_fail env req _ v (hsurv hex)
  · intro hex hrn
    rw [hpipe, afterEmbed_base env req _ v (hsurv hex) hrn, tagOf_zero _ rfl]
  · intro hne hall
    rw [hpipe]
    exact afterEmbed_unavailable env req _ v
      ⟨hne, gather_all_none env v env.catalog.nativeCodes hall⟩
  · intro hun
    rw [hpipe] at hun
    by_cases hc : (env.catalog.nativeCodes ≠ [] ∧
        gather env v env.catalog.nativeCodes = [])
    · exact gather_eq_nil_all_none env v env.catalog.nativeCodes hc.2
    · obtain ⟨src, cands, hok⟩ :=
        afterEmbed_ok_of_not_fail env req ⟨env.catalog.nativeCodes, req.query, 0⟩ v hc
      rw [hok] at hun
      exact absurd hun (by simp)

unseal List.mergeSort List.merge String.ltb in
/-- C7 witness: with `en` unreachable and `fr` surviving, `lang=all`
returns the results of the surviving partition, not an error — both for a
rerank=false request (the exact merged list) and for a rerank=true request
(a successful assembled response). -/
theorem C7_partition_degradation_witness :
    pipeline frOnlyEnv ⟨"hi", "all", false, none⟩ = .ok [⟨"Q7", 3, "native", 1⟩] ∧
    ∃ src cands, pipeline frOnlyEnv ⟨"hi", "all", true, none⟩ =
      .ok (assemble frOnlyEnv.topK src cands) := by
  constructor
  · have h := (C7_partition_degradation frOnlyEnv ⟨"hi", "all", false, none⟩ [0]
      (by decide) (by decide) rfl rfl).2.2.1
      ⟨"fr", by decide, by decide⟩ (Or.inl rfl)
    rw [h]
    decide
  · exact (C7_partition_degradation frOnlyEnv ⟨"hi", "all", true, none⟩ [0]
      (by decide) (by decide) rfl rfl).2.1
      ⟨"fr", by decide, by decide⟩

/-- C8: every successful query-endpoint response serializes to a JSON
array whose objects each contain the keys `id`, `similarity_score` and
`source`. -/
theorem C8_response_shape (env : Env) (req : Request) (rs : List RankedResult)
    (hok : pipeline env req = .ok rs) :
    ∀ obj ∈ serializeResponse rs,
      "id" ∈ obj.map Prod.fst ∧ "similarity_score" ∈ obj.map Prod.fst ∧
        "source" ∈ obj.map Prod.fst := by
  intro obj hobj
  obtain ⟨r, _, rfl⟩ := List.mem_map.mp hobj
  refine ⟨?_, ?_, ?_⟩ <;> simp [serializeResult]

unseal List.mergeSort List.merge String.ltb in
/-- C8 witness: a concrete successful response and the three keys of its
single serialized object. -/
theorem C8_response_shape_witness :
    pipeline openEnv ⟨"hey", "en", false, none⟩ = .ok [⟨"Q42", 5, "native", 1⟩] ∧
    "id" ∈ (serializeResult ⟨"Q42", 5, "native", 1⟩).map Prod.fst ∧
    "similarity_score" ∈ (serializeResult ⟨"Q42", 5, "native", 1⟩).map Prod.fst ∧
    "source" ∈ (serializeResult ⟨"Q42", 5, "native", 1⟩).map Prod.fst := by
  have hok : pipeline openEnv ⟨"hey", "en", false, none⟩ =
      .ok [⟨"Q42", 5, "native", 1⟩] := by decide
  exact ⟨hok, C8_response_shape openEnv ⟨"hey", "en", false, none⟩ _ hok
    (serializeResult ⟨"Q42", 5, "native", 1⟩) (by simp [serializeResponse])⟩

/-- C9: `chunk arr 50` partitions `arr`: every batch except possibly the
last has length exactly 50, no batch exceeds 50 elements, and
concatenating the batches in order yields `arr` exactly. -/
theorem C9_chunk_partition {α : Type} (arr : List α) :
    (∀ b ∈ (chunk arr 50).dropLast, b.length = 50) ∧
    (∀ b ∈ chunk arr 50, b.length ≤ 50) ∧
    (chunk arr 50).flatten = arr :=
  ⟨chunk_dropLast_length 50 (by decide) arr, chunk_length_le 50 arr,
    chunk_flatten 50 (by decide) arr⟩

unseal chunk in
set_option maxRecDepth 8000 in
/-- C9 witness: the partition property at a concrete 120-element list
(batches of 50, 50, 20), together with a direct evaluation. -/
theorem C9_chunk_partition_witness :
    (chunk (List.range 120) 50).flatten = List.range 120 ∧
    (∀ b ∈ (chunk (List.range 120) 50).dropLast, b.length = 50) ∧
    (chunk (List.range 120) 50).length = 3 :=
  ⟨(C9_chunk_partition (List.range 120)).2.2, (C9_chunk_partition (List.range 120)).1,
    by decide⟩

/-- C10: the search URL always carries `rerank=True` and the lowercased
language code (`all` when the lowercased selection is empty); and when the
selected language is empty or `all` (case-insensitively), every result is
tagged with `lang = "en"` for feedback correlation, whatever partition
produced it. -/
theorem C10_search_request (enc : String → String) (base query sel : String)
    (rs : List RawResult) :
    searchUrl enc base query sel =
      base ++ "/?query=" ++ enc query ++ "&rerank=True&lang=" ++
        (if sel.toLower = "" then "all" else sel.toLower) ∧
    (sel.toLower = "" ∨ sel.toLower = "all" →
      ∀ r ∈ tagResults query sel rs, r.lang = "en") := by
  refine ⟨searchUrl_eq enc base query sel, ?_⟩
  intro h r hr
  rw [tagResults_lang query sel rs r hr, feedbackLang_en sel h]

unseal String.mapAux in
/-- C10 witness: the default selection `All` yields a URL with
`rerank=True&lang=all`, and results tagged `lang = "en"`. -/
theorem C10_search_request_witness :
    searchUrl (fun s => s) "/item/query" "cat" "All" =
      "/item/query/?query=cat&rerank=True&lang=all" ∧
    ∀ r ∈ tagResults "cat" "All" [⟨some "Q1", none, 3⟩], r.lang = "en" := by
  have h := C10_search_request (fun s => s) "/item/query" "cat" "All"
    [⟨some "Q1", none, 3⟩]
  constructor
  · rw [h.1]
    decide
  · exact h.2 (Or.inr (by decide))

end WikidataSearch
